import Mathlib

/-!
Shallow embedding of the frame-acquisition and distribution core of
`iot_driver_copilot/usb_webcam/driver.py`.

The embedded pieces are:

* `Config` — the fields of the Python `Config` class that the acquisition
  loop and the stream handler consume.
* `VideoWorker._run` — one pass of the `while not self._stop_event.is_set()`
  loop becomes `step`; a whole run is a fold (`runFrom` / `run`) over a
  script of per-pass environment inputs (`Iter`): the wall clock value
  `time.time()` observed during the pass, whether `_open_capture`
  succeeds, and the outcome of `cap.read()` plus JPEG encoding.
* The frame slot is the pair `_last_jpeg` / `_last_ts`, guarded by
  `self._lock` in the Python code; lock-protected critical sections are
  atomic steps here.
* `get_latest_frame` becomes `slotOf` / `handleFrame`; the `/stream`
  handler's polling loop becomes `streamStep` / `streamRun`.
* A thread-tagged interleaving model (`SysState`, `sysStep`, `sysRun`)
  combines the worker loop, `VideoWorker.stop` on the main thread, and
  the HTTP consumer handlers, for the claims about thread ownership and
  fan-out.

Wall-clock times and float-valued configuration entries are modelled as
rationals; Python `int(...)` truncation toward zero is `pyint`.
JPEG payloads are abstracted to naturals.
-/

namespace UsbWebcam

/-- Encoded JPEG payload (`buf.tobytes()`), abstracted to a natural. -/
abbrev Bytes := Nat

/-- The configuration fields of the Python `Config` class used by the
acquisition loop and the handlers.  Millisecond values are integers as in
the code (`_require_int`); `BACKOFF_MULTIPLIER` and `STALE_TIMEOUT_SEC`
are floats (`_require_float`), modelled as rationals.  The constructor
validates `backoff_multiplier ≥ 1.0` and `1 ≤ jpeg_quality ≤ 100`, but
none of the millisecond fields are checked for sign. -/
structure Config where
  backoff_initial_ms : ℤ
  backoff_max_ms : ℤ
  backoff_multiplier : ℚ
  stale_timeout_sec : ℚ
  loop_sleep_ms : ℤ
  stream_min_interval_ms : ℤ
  jpeg_quality : ℤ
deriving Repr, DecidableEq

/-- Python `int(x)` on a float: truncation toward zero.  For a rational
`q`, `q.num / q.den` with Lean's T-division on `ℤ` truncates toward zero
exactly as Python does. -/
def pyint (q : ℚ) : ℤ := q.num / (q.den : ℤ)

/-- Backoff update `backoff_ms = int(min(self.cfg.backoff_max_ms, max(1, backoff_ms) * self.cfg.backoff_multiplier))`
(lines 170 and 212 of `driver.py`). -/
def nextBackoff (cfg : Config) (b : ℤ) : ℤ :=
  pyint (min (cfg.backoff_max_ms : ℚ) ((max 1 b : ℤ) * cfg.backoff_multiplier))

/-- Slept delay `delay = min(backoff_ms, self.cfg.backoff_max_ms)` — the duration
actually slept before the next open attempt. -/
def sleptDelay (cfg : Config) (b : ℤ) : ℤ := min b cfg.backoff_max_ms

/-- Outcome of the `ret, frame = self._cap.read()` call and, when the read
succeeds, of the `cv2.imencode` call, during one pass of the loop. -/
inductive ReadRes where
  /-- Read failed: `ret` false or `frame is None` (the "Camera read failed" branch). -/
  | readFail
  /-- Read succeeded but `cv2.imencode` returned not-ok or raised. -/
  | encodeFail
  /-- Read and encode both succeeded, producing JPEG payload `d`. -/
  | frame (d : Bytes)
deriving Repr, DecidableEq

/-- Environment input consumed by one pass of the `while` loop of
`VideoWorker._run`: the wall-clock value `time.time()` observed during
the pass, whether an attempted `_open_capture()` returns a handle, and
the read/encode outcome.  (The code reads the clock once at open success
and once after the read; both reads of one pass are collapsed into a
single `now`, which a wall clock allows since consecutive readings may
be equal.) -/
structure Iter where
  now : ℚ
  openOk : Bool
  res : ReadRes
deriving Repr, DecidableEq

/-- The mutable state of `VideoWorker` touched by `_run`:
`self._cap is not None`, the local `backoff_ms` and `last_success_ts`
variables of `_run`, and the frame slot `self._last_jpeg` /
`self._last_ts`. -/
structure WorkerState where
  cap : Bool
  backoff_ms : ℤ
  last_success_ts : ℚ
  last_jpeg : Option Bytes
  last_ts : ℚ
deriving Repr, DecidableEq

/-- Entry state of `_run`: `backoff_ms = max(self.cfg.backoff_initial_ms, 0)`,
`last_success_ts = 0.0`, no capture handle, and an empty slot. -/
def initState (cfg : Config) : WorkerState :=
  { cap := false
    backoff_ms := max cfg.backoff_initial_ms 0
    last_success_ts := 0
    last_jpeg := none
    last_ts := 0 }

/-- Observable events of one pass of the acquisition loop. -/
inductive Ev where
  /-- Call of `_open_capture()` (the `cv2.VideoCapture` constructor touches the device). -/
  | openAttempt
  /-- Call of `self._cap.read()`. -/
  | capRead
  /-- Slot overwrite with payload `d` at time `ts`
  (`self._last_jpeg = data; self._last_ts = now` under the lock). -/
  | publish (d : Bytes) (ts : ℚ)
  /-- Call of `self._cap.release()`. -/
  | release
  /-- Backoff sleep `self._sleep_ms(delay)` before the next open attempt. -/
  | backoffSleep (ms : ℤ)
  /-- End-of-pass `self._sleep_ms(self.cfg.loop_sleep_ms)`. -/
  | loopSleep (ms : ℤ)
deriving Repr, DecidableEq

/-- The read / encode / staleness part of a pass (lines 177–216), entered
with the capture open.  `evs` carries events already emitted earlier in
the pass. -/
def readPhase (cfg : Config) (s : WorkerState) (it : Iter) (evs : List Ev) :
    WorkerState × List Ev :=
  let sr : WorkerState × List Ev :=
    match it.res with
    | .frame d =>
        ({ s with last_jpeg := some d, last_ts := it.now, last_success_ts := it.now },
          evs ++ [Ev.capRead, Ev.publish d it.now])
    | .encodeFail => (s, evs ++ [Ev.capRead])
    | .readFail => (s, evs ++ [Ev.capRead])
  let s1 := sr.1
  if s1.last_success_ts > 0 ∧ it.now - s1.last_success_ts > cfg.stale_timeout_sec then
    ({ s1 with cap := false, backoff_ms := nextBackoff cfg s1.backoff_ms },
      sr.2 ++ [Ev.release, Ev.backoffSleep (sleptDelay cfg s1.backoff_ms)])
  else
    (s1, sr.2 ++ [Ev.loopSleep cfg.loop_sleep_ms])

/-- State right after a successful `_open_capture()`:
`backoff_ms = self.cfg.backoff_initial_ms` and `last_success_ts = time.time()`. -/
def openedState (cfg : Config) (s : WorkerState) (now : ℚ) : WorkerState :=
  { s with cap := true, backoff_ms := cfg.backoff_initial_ms, last_success_ts := now }

/-- One full pass of the `while` loop of `VideoWorker._run`.  When
disconnected it attempts `_open_capture`; on failure it sleeps the capped
backoff and doubles-by-multiplier (`continue`); on success it resets
`backoff_ms` to the configured initial value, stamps `last_success_ts`,
and falls through to the read phase of the same pass, exactly as the
code does. -/
def step (cfg : Config) (s : WorkerState) (it : Iter) : WorkerState × List Ev :=
  if s.cap then
    readPhase cfg s it []
  else if it.openOk then
    readPhase cfg (openedState cfg s it.now) it [Ev.openAttempt]
  else
    ({ s with backoff_ms := nextBackoff cfg s.backoff_ms },
      [Ev.openAttempt, Ev.backoffSleep (sleptDelay cfg s.backoff_ms)])

/-- Run the acquisition loop from state `s` through a script of passes,
collecting the event trace. -/
def runFrom (cfg : Config) (s : WorkerState) : List Iter → WorkerState × List Ev
  | [] => (s, [])
  | it :: rest =>
      let p := step cfg s it
      let q := runFrom cfg p.1 rest
      (q.1, p.2 ++ q.2)

/-- Run the acquisition loop from the initial state of `_run`. -/
def run (cfg : Config) (its : List Iter) : WorkerState × List Ev :=
  runFrom cfg (initState cfg) its

/-- The frames published into the slot, in order. -/
def publishesOf : List Ev → List (Bytes × ℚ)
  | [] => []
  | Ev.publish d ts :: r => (d, ts) :: publishesOf r
  | _ :: r => publishesOf r

/-- The backoff delays slept, in order. -/
def backoffSleepsOf : List Ev → List ℤ
  | [] => []
  | Ev.backoffSleep ms :: r => ms :: backoffSleepsOf r
  | _ :: r => backoffSleepsOf r

/-- How many times `self._cap.release()` ran. -/
def releaseCount : List Ev → ℕ
  | [] => 0
  | Ev.release :: r => releaseCount r + 1
  | _ :: r => releaseCount r

/-- View of `get_latest_frame()`: under the lock it returns `(None, 0.0)`
when no frame was ever stored, else the stored pair. -/
def slotOf (s : WorkerState) : Option (Bytes × ℚ) :=
  match s.last_jpeg with
  | none => none
  | some j => some (j, s.last_ts)

/-- Response of `RequestHandler._handle_frame` (`GET /frame`): HTTP 200
with the JPEG bytes, or the HTTP 503 "No frame available yet" answer. -/
inductive FrameResponse where
  | ok (d : Bytes) (ts : ℚ)
  | unavailable
deriving Repr, DecidableEq

/-- Body of `_handle_frame`: `jpeg, ts = self.worker.get_latest_frame()`;
503 when `jpeg is None`, else 200 with the bytes. -/
def handleFrame (slot : Option (Bytes × ℚ)) : FrameResponse :=
  match slot with
  | none => FrameResponse.unavailable
  | some (j, ts) => FrameResponse.ok j ts

/-- Throttle interval of the stream handler:
`min_interval = RequestHandler.cfg.stream_min_interval_ms / 1000.0`. -/
def minInterval (cfg : Config) : ℚ := (cfg.stream_min_interval_ms : ℚ) / 1000

/-- Environment of one pass of the `while True` polling loop in
`RequestHandler._handle_stream`: the slot contents returned by
`get_latest_frame()`, the `now = time.time()` read after it, and whether
the socket writes of the multipart part would succeed (`writeOk = false`
models `BrokenPipeError` or another write error, which breaks the loop). -/
structure Poll where
  slot : Option (Bytes × ℚ)
  now : ℚ
  writeOk : Bool
deriving Repr, DecidableEq

/-- One multipart part written to a stream client: the payload, the
capture timestamp that was stored in the slot, and the time at which the
part was written. -/
structure Part where
  data : Bytes
  ts : ℚ
  sentAt : ℚ
deriving Repr, DecidableEq

/-- Per-connection state of `_handle_stream`: `last_sent_ts = 0.0`. -/
structure StreamState where
  last_sent_ts : ℚ
deriving Repr, DecidableEq

/-- Initial per-connection state of `_handle_stream`. -/
def initStream : StreamState := ⟨0⟩

/-- One pass of the `while True` loop of `_handle_stream`.  An empty slot
means `time.sleep(0.05); continue`.  Otherwise the part is skipped
(`time.sleep(0.01); continue`) when `ts <= last_sent_ts` or when the
throttle is on and `now - last_sent_ts < min_interval`; else the part is
written and `last_sent_ts = ts if ts > 0 else now`, or the loop breaks on
a write error.  Returns (new state, part written if any, loop broke). -/
def streamStep (cfg : Config) (st : StreamState) (p : Poll) :
    StreamState × Option Part × Bool :=
  match p.slot with
  | none => (st, none, false)
  | some (j, ts) =>
      if ts ≤ st.last_sent_ts ∨
          (minInterval cfg > 0 ∧ p.now - st.last_sent_ts < minInterval cfg) then
        (st, none, false)
      else if p.writeOk then
        ({ last_sent_ts := if ts > 0 then ts else p.now }, some ⟨j, ts, p.now⟩, false)
      else
        (st, none, true)

/-- Run the polling loop of `_handle_stream` over a list of poll
environments, collecting the parts written, and stopping early when the
loop breaks on a write error.  The final boolean records whether the
loop broke; on an empty slot the loop just keeps polling, so a script
that never publishes and never kills the connection leaves the handler
still looping, with no timeout path. -/
def streamRun (cfg : Config) (st : StreamState) : List Poll → StreamState × List Part × Bool
  | [] => (st, [], false)
  | p :: rest =>
      let r := streamStep cfg st p
      if r.2.2 then (r.1, [], true)
      else
        let q := streamRun cfg r.1 rest
        (q.1, r.2.1.toList ++ q.2.1, q.2.2)

/-!
A thread-tagged interleaving model of the whole process: the acquisition
worker thread, the main thread (which calls `VideoWorker.stop` during
shutdown, after `ThreadingHTTPServer` stops), and one thread per HTTP
consumer as spawned by `ThreadingHTTPServer`.  A schedule interleaves
atomic sections of the threads; the trace tags every event with the
thread that performed it.
-/

/-- Thread identifiers: the `VideoWorker` thread, the main thread, and
the per-request handler threads of `ThreadingHTTPServer`. -/
inductive Tid where
  | worker
  | main
  | consumer (n : ℕ)
deriving Repr, DecidableEq

/-- An action some thread performed, as recorded in the system trace. -/
inductive Act where
  /-- An event of the acquisition-loop code (also `release` from `stop`). -/
  | loopEv (e : Ev)
  /-- A call of `worker.get_latest_frame()` (slot read under the lock). -/
  | slotRead
  /-- A multipart part written to a stream client by its handler. -/
  | wrote (p : Part)
  /-- The response sent by `_handle_frame` for a snapshot request. -/
  | answered (r : FrameResponse)
deriving Repr, DecidableEq

/-- Does the action touch the `CaptureHandle` (construct it, call
`read()` on it, or call `release()` on it)? -/
def touchesCap : Act → Bool
  | .loopEv Ev.openAttempt => true
  | .loopEv Ev.capRead => true
  | .loopEv Ev.release => true
  | _ => false

/-- Association list of per-connection stream states, newest binding
first. -/
def getStream (l : List (ℕ × StreamState)) (n : ℕ) : StreamState :=
  match l.lookup n with
  | some s => s
  | none => initStream

/-- State of the whole process: the worker's state (including the frame
slot), whether `stop` was signalled, and the per-connection stream
states. -/
structure SysState where
  ws : WorkerState
  stopped : Bool
  streams : List (ℕ × StreamState)
deriving Repr, DecidableEq

/-- Process state at startup. -/
def initSys (cfg : Config) : SysState :=
  { ws := initState cfg, stopped := false, streams := [] }

/-- One schedule entry: which thread runs next, with its environment
input. -/
inductive SysIter where
  /-- The worker thread runs one pass of `_run` (a no-op once the stop
  event is set: the `while` condition is false and the thread exits). -/
  | workerPass (it : Iter)
  /-- The main thread runs `VideoWorker.stop()`: sets the stop event,
  joins the worker, then calls `self._cap.release()` if a handle is held. -/
  | stopCall
  /-- Consumer thread `n` serves `GET /frame`. -/
  | frameRequest (n : ℕ)
  /-- Consumer thread `n` runs one pass of the `_handle_stream` loop,
  reading the shared slot at time `now`. -/
  | streamPoll (n : ℕ) (now : ℚ) (writeOk : Bool)
deriving Repr, DecidableEq

/-- Interleaved small-step semantics of the process.  Lock-protected
critical sections (`publish` and `get_latest_frame`) are atomic. -/
def sysStep (cfg : Config) (σ : SysState) : SysIter → SysState × List (Tid × Act)
  | .workerPass it =>
      if σ.stopped then (σ, [])
      else
        let p := step cfg σ.ws it
        ({ σ with ws := p.1 }, p.2.map (fun e => (Tid.worker, Act.loopEv e)))
  | .stopCall =>
      ({ σ with stopped := true },
        if σ.ws.cap then [(Tid.main, Act.loopEv Ev.release)] else [])
  | .frameRequest n =>
      (σ, [(Tid.consumer n, Act.slotRead),
           (Tid.consumer n, Act.answered (handleFrame (slotOf σ.ws)))])
  | .streamPoll n now writeOk =>
      let st := getStream σ.streams n
      let r := streamStep cfg st ⟨slotOf σ.ws, now, writeOk⟩
      ({ σ with streams := (n, r.1) :: σ.streams },
        (Tid.consumer n, Act.slotRead) ::
          (match r.2.1 with
           | some part => [(Tid.consumer n, Act.wrote part)]
           | none => []))

/-- Run the process under a schedule, collecting the tagged trace. -/
def sysRunFrom (cfg : Config) (σ : SysState) : List SysIter → SysState × List (Tid × Act)
  | [] => (σ, [])
  | si :: rest =>
      let p := sysStep cfg σ si
      let q := sysRunFrom cfg p.1 rest
      (q.1, p.2 ++ q.2)

/-- Run the process from startup under a schedule. -/
def sysRun (cfg : Config) (sched : List SysIter) : SysState × List (Tid × Act) :=
  sysRunFrom cfg (initSys cfg) sched

/-- The frames published into the slot during a system trace, in order. -/
def sysPublishes : List (Tid × Act) → List (Bytes × ℚ)
  | [] => []
  | (_, Act.loopEv (Ev.publish d ts)) :: r => (d, ts) :: sysPublishes r
  | _ :: r => sysPublishes r

/-- The multipart parts received by stream consumer `n`, in order. -/
def sentBy (n : ℕ) : List (Tid × Act) → List Part
  | [] => []
  | (Tid.consumer m, Act.wrote p) :: r =>
      if m = n then p :: sentBy n r else sentBy n r
  | _ :: r => sentBy n r

/-- Script of `N` consecutive passes in which `_open_capture` fails. -/
def openFails (N : ℕ) : List Iter :=
  List.replicate N ⟨0, false, ReadRes.readFail⟩

/-- The value of the `backoff_ms` variable before the `k`-th consecutive
failing pass, starting from value `b`. -/
def backoffSeqFrom (cfg : Config) (b : ℤ) : ℕ → ℤ
  | 0 => b
  | k + 1 => backoffSeqFrom cfg (nextBackoff cfg b) k

/-- The value of the `backoff_ms` variable before the `k`-th consecutive
open failure of a fresh run (`backoff_ms = max(initial, 0)` at entry). -/
def backoffSeq (cfg : Config) (k : ℕ) : ℤ :=
  backoffSeqFrom cfg (max cfg.backoff_initial_ms 0) k

/-- A concrete configuration with `BACKOFF_MULTIPLIER = 3`,
`BACKOFF_INITIAL_MS = 100`, `BACKOFF_MAX_MS = 100000`,
`STALE_TIMEOUT_SEC = 10`, `LOOP_SLEEP_MS = 30`,
`STREAM_MIN_INTERVAL_MS = 0`, `JPEG_QUALITY = 80` — all values the
`Config` validation accepts. -/
def cfgMul3 : Config :=
  { backoff_initial_ms := 100, backoff_max_ms := 100000, backoff_multiplier := 3,
    stale_timeout_sec := 10, loop_sleep_ms := 30, stream_min_interval_ms := 0,
    jpeg_quality := 80 }

/-- A concrete configuration with a long staleness timeout
(`STALE_TIMEOUT_SEC = 1000`) and `BACKOFF_MULTIPLIER = 2`. -/
def cfgLongStale : Config :=
  { backoff_initial_ms := 100, backoff_max_ms := 100000, backoff_multiplier := 2,
    stale_timeout_sec := 1000, loop_sleep_ms := 30, stream_min_interval_ms := 0,
    jpeg_quality := 80 }

/-- A concrete configuration with the stream throttle on:
`STREAM_MIN_INTERVAL_MS = 1000`, i.e. a one-second minimum interval. -/
def cfgThrottle : Config :=
  { backoff_initial_ms := 100, backoff_max_ms := 100000, backoff_multiplier := 2,
    stale_timeout_sec := 10, loop_sleep_ms := 30, stream_min_interval_ms := 1000,
    jpeg_quality := 80 }

end UsbWebcam

namespace UsbWebcam

/-! ### General lemmas about traces -/

/-- Publishes recorded in a concatenated trace split accordingly. -/
theorem publishesOf_append (a b : List Ev) :
    publishesOf (a ++ b) = publishesOf a ++ publishesOf b := by
  induction a with
  | nil => simp [publishesOf]
  | cons e r ih => cases e <;> simp [publishesOf, ih]

/-- Backoff sleeps recorded in a concatenated trace split accordingly. -/
theorem backoffSleepsOf_append (a b : List Ev) :
    backoffSleepsOf (a ++ b) = backoffSleepsOf a ++ backoffSleepsOf b := by
  induction a with
  | nil => simp [backoffSleepsOf]
  | cons e r ih => cases e <;> simp [backoffSleepsOf, ih]

/-- One pass leaves the slot empty iff it was empty before and the pass
published nothing. -/
theorem step_slot_none (cfg : Config) (s : WorkerState) (it : Iter) :
    (step cfg s it).1.last_jpeg = none ↔
      s.last_jpeg = none ∧ publishesOf (step cfg s it).2 = [] := by
  rcases it with ⟨now, openOk, res⟩
  unfold step readPhase
  cases res <;> cases openOk <;> by_cases hc : s.cap <;>
    simp [hc, openedState, publishesOf, publishesOf_append] <;> split <;> simp [publishesOf]

/-- A run leaves the slot empty iff it started empty and its trace has no
publish. -/
theorem runFrom_slot_none (cfg : Config) (its : List Iter) :
    ∀ s, (runFrom cfg s its).1.last_jpeg = none ↔
      s.last_jpeg = none ∧ publishesOf (runFrom cfg s its).2 = [] := by
  induction its with
  | nil => intro s; simp [runFrom, publishesOf]
  | cons it rest ih =>
      intro s
      show (runFrom cfg (step cfg s it).1 rest).1.last_jpeg = none ↔ _
      rw [ih, step_slot_none]
      show _ ↔ s.last_jpeg = none ∧
        publishesOf ((step cfg s it).2 ++ (runFrom cfg (step cfg s it).1 rest).2) = []
      rw [publishesOf_append, List.append_eq_nil]
      tauto

/-- The slot view is empty exactly when `self._last_jpeg is None`. -/
theorem slotOf_none_iff (s : WorkerState) : slotOf s = none ↔ s.last_jpeg = none := by
  cases h : s.last_jpeg <;> simp [slotOf, h]

/-! ### Backoff lemmas -/

/-- A pass sleeps at most one backoff delay, and any such delay is a
capped `sleptDelay`. -/
theorem step_backoffSleeps (cfg : Config) (s : WorkerState) (it : Iter) :
    backoffSleepsOf (step cfg s it).2 = [] ∨
      ∃ b, backoffSleepsOf (step cfg s it).2 = [sleptDelay cfg b] := by
  rcases it with ⟨now, openOk, res⟩
  unfold step readPhase
  cases res <;> cases openOk <;> by_cases hc : s.cap <;>
    simp [hc, openedState, backoffSleepsOf, backoffSleepsOf_append] <;> split <;>
    simp [backoffSleepsOf]

/-- Every backoff delay slept during a run is at most `BACKOFF_MAX_MS`. -/
theorem runFrom_backoffSleeps_le (cfg : Config) (its : List Iter) :
    ∀ s d, d ∈ backoffSleepsOf (runFrom cfg s its).2 → d ≤ cfg.backoff_max_ms := by
  induction its with
  | nil => intro s d h; simp [runFrom, backoffSleepsOf] at h
  | cons it rest ih =>
      intro s d h
      rw [show (runFrom cfg s (it :: rest)).2
            = (step cfg s it).2 ++ (runFrom cfg (step cfg s it).1 rest).2 from rfl,
        backoffSleepsOf_append, List.mem_append] at h
      rcases h with h | h
      · rcases step_backoffSleeps cfg s it with h0 | ⟨b, h0⟩ <;> rw [h0] at h
        · simp at h
        · simp at h
          subst h
          exact min_le_right _ _
      · exact ih _ d h

/-- Starting disconnected, `N` consecutive open failures sleep exactly the
capped values of the backoff recurrence. -/
theorem openFails_sleeps (cfg : Config) :
    ∀ (N : ℕ) (s : WorkerState), s.cap = false →
      backoffSleepsOf (runFrom cfg s (openFails N)).2 =
        (List.range N).map (fun k => sleptDelay cfg (backoffSeqFrom cfg s.backoff_ms k)) := by
  intro N
  induction N with
  | zero => intro s h; simp [openFails, runFrom, backoffSleepsOf]
  | succ n ih =>
      intro s h
      have hrep : openFails (n + 1) = ⟨0, false, ReadRes.readFail⟩ :: openFails n := by
        simp [openFails, List.replicate]
      have hstep : step cfg s ⟨0, false, ReadRes.readFail⟩ =
          ({ s with backoff_ms := nextBackoff cfg s.backoff_ms },
            [Ev.openAttempt, Ev.backoffSleep (sleptDelay cfg s.backoff_ms)]) := by
        unfold step
        simp [h]
      rw [hrep]
      show backoffSleepsOf ((step cfg s _).2 ++ (runFrom cfg (step cfg s _).1 (openFails n)).2) = _
      rw [hstep, backoffSleepsOf_append]
      rw [ih _ (by exact h)]
      rw [List.range_succ_eq_map]
      simp [backoffSleepsOf, backoffSeqFrom, Function.comp]

end UsbWebcam

namespace UsbWebcam

/-- A pass publishes at most one frame, timestamped with the clock value
of that pass. -/
theorem step_pub_ts (cfg : Config) (s : WorkerState) (it : Iter) :
    List.Sublist ((publishesOf (step cfg s it).2).map Prod.snd) [it.now] := by
  rcases it with ⟨now, openOk, res⟩
  unfold step readPhase
  cases res <;> cases openOk <;> by_cases hc : s.cap <;>
    simp [hc, openedState, publishesOf, publishesOf_append] <;> split <;>
    simp [publishesOf]

/-- The publish timestamps of a run form a sublist of the clock values of
its passes, in order. -/
theorem runFrom_pub_ts (cfg : Config) (its : List Iter) :
    ∀ s, List.Sublist ((publishesOf (runFrom cfg s its).2).map Prod.snd) (its.map Iter.now) := by
  induction its with
  | nil => intro s; simp [runFrom, publishesOf]
  | cons it rest ih =>
      intro s
      show List.Sublist ((publishesOf ((step cfg s it).2 ++
          (runFrom cfg (step cfg s it).1 rest).2)).map Prod.snd)
          (it.now :: rest.map Iter.now)
      rw [publishesOf_append, List.map_append]
      exact List.Sublist.append (step_pub_ts cfg s it) (ih _)

end UsbWebcam

namespace UsbWebcam

/-- Claim C2 states every published frame carries a sequence number that
is strictly increasing, starting at 0 and incrementing by 1 per publish.
Counterexample: the code attaches no sequence number — a published frame
is payload bytes plus a `time.time()` timestamp only — and a run whose
two reads return the same payload under an unchanged clock publishes two
identical frames `(7, 5)`, so no function of the published frame is
strictly increasing across the two publishes. -/
theorem C2_no_sequence_number_cex :
    publishesOf (run cfgMul3 [⟨5, true, ReadRes.frame 7⟩, ⟨5, true, ReadRes.frame 7⟩]).2
        = [(7, 5), (7, 5)] ∧
    ∀ seqOf : Bytes × ℚ → ℤ,
      ¬ List.Chain' (fun p q => seqOf p < seqOf q)
          (publishesOf (run cfgMul3 [⟨5, true, ReadRes.frame 7⟩, ⟨5, true, ReadRes.frame 7⟩]).2) := by
  have e : publishesOf (run cfgMul3 [⟨5, true, ReadRes.frame 7⟩, ⟨5, true, ReadRes.frame 7⟩]).2
      = [(7, 5), (7, 5)] := by with_unfolding_all decide
  refine ⟨e, ?_⟩
  intro seqOf h
  rw [e] at h
  exact absurd (List.chain'_cons.mp h).1 (lt_irrefl _)

/-- Claim C2, amended: published frames carry a capture timestamp, not a
counter; when the clock values of the passes strictly increase, the
timestamps of successive published frames strictly increase. -/
theorem C2_publish_timestamps_increase (cfg : Config) (its : List Iter)
    (h : List.Chain' (· < ·) (its.map Iter.now)) :
    List.Chain' (fun p q : Bytes × ℚ => p.2 < q.2) (publishesOf (run cfg its).2) := by
  have hs := runFrom_pub_ts cfg its (initState cfg)
  have hchain := h.sublist hs
  rw [List.chain'_map] at hchain
  exact hchain

/-- Witness for the amended C2 theorem on a concrete two-frame run with a
strictly increasing clock. -/
theorem C2_publish_timestamps_increase_witness :
    List.Chain' (· < ·) ([(⟨1, true, ReadRes.frame 3⟩ : Iter), ⟨2, true, ReadRes.frame 4⟩].map Iter.now) ∧
    List.Chain' (fun p q : Bytes × ℚ => p.2 < q.2)
      (publishesOf (run cfgMul3 [⟨1, true, ReadRes.frame 3⟩, ⟨2, true, ReadRes.frame 4⟩]).2) :=
  ⟨by norm_num [List.chain'_cons, Iter.now],
   C2_publish_timestamps_increase cfgMul3 _ (by norm_num [List.chain'_cons, Iter.now])⟩

/-- Claim C4 states the backoff delays after consecutive open failures are
`initial, initial*2, initial*4, …` capped at the maximum.
Counterexample: the code multiplies by the required configuration value
`BACKOFF_MULTIPLIER` rather than doubling; with multiplier 3 the slept
delays after two failures are `[100, 300]`, not `[100, 200]`. -/
theorem C4_backoff_not_doubling_cex :
    backoffSleepsOf (run cfgMul3 (openFails 2)).2 = [100, 300] ∧
    backoffSleepsOf (run cfgMul3 (openFails 2)).2 ≠ [100, 200] := by
  with_unfolding_all decide

/-- Claim C4, amended: after `N` consecutive open failures the slept
delays are `min(b_k, max)` for the recurrence `b_0 = max(initial, 0)`,
`b_(k+1) = int(min(max, max(1, b_k) * multiplier))` — doubling exactly
when `BACKOFF_MULTIPLIER = 2` — and no slept backoff delay of any run
ever exceeds the configured maximum. -/
theorem C4_backoff_recurrence_and_cap (cfg : Config) (N : ℕ) (its : List Iter) :
    backoffSleepsOf (run cfg (openFails N)).2 =
      (List.range N).map (fun k => sleptDelay cfg (backoffSeq cfg k)) ∧
    ∀ d ∈ backoffSleepsOf (run cfg its).2, d ≤ cfg.backoff_max_ms := by
  constructor
  · have h := openFails_sleeps cfg N (initState cfg) rfl
    simpa [run, backoffSeq, initState] using h
  · intro d hd
    exact runFrom_backoffSleeps_le cfg its (initState cfg) d hd

/-- Witness for the amended C4 theorem: the recurrence evaluated at a
concrete two-failure run, and the cap bound applied to a delay of that
run. -/
theorem C4_backoff_recurrence_and_cap_witness :
    backoffSleepsOf (run cfgMul3 (openFails 2)).2 =
      (List.range 2).map (fun k => sleptDelay cfgMul3 (backoffSeq cfgMul3 k)) ∧
    (100 : ℤ) ≤ cfgMul3.backoff_max_ms :=
  ⟨(C4_backoff_recurrence_and_cap cfgMul3 2 (openFails 2)).1,
   (C4_backoff_recurrence_and_cap cfgMul3 2 (openFails 2)).2 100
     (by with_unfolding_all decide)⟩

/-- Claim C5 states the Connected loop counts consecutive read errors and
releases the handle when the count reaches a configured threshold.
Counterexample: the embedded `Config` has no threshold field and
`WorkerState` no counter — twenty consecutive read failures inside the
staleness window produce no `release` and leave the handle connected. -/
theorem C5_no_error_counter_cex :
    releaseCount (run cfgLongStale
      ((⟨1, true, ReadRes.frame 7⟩ : Iter) :: List.replicate 20 ⟨2, true, ReadRes.readFail⟩)).2 = 0 ∧
    (run cfgLongStale
      ((⟨1, true, ReadRes.frame 7⟩ : Iter) :: List.replicate 20 ⟨2, true, ReadRes.readFail⟩)).1.cap = true := by
  with_unfolding_all decide

/-- Claim C5, amended: on a read failure in the Connected state the pass
releases the handle and transitions to Disconnected (sleeping the capped
backoff) iff `last_success_ts > 0` and
`now - last_success_ts > STALE_TIMEOUT_SEC`; otherwise it keeps looping.
No consecutive-error counter is involved. -/
theorem C5_release_iff_stale (cfg : Config) (s : WorkerState) (now : ℚ) (o : Bool)
    (h : s.cap = true) :
    step cfg s ⟨now, o, ReadRes.readFail⟩ =
      if s.last_success_ts > 0 ∧ now - s.last_success_ts > cfg.stale_timeout_sec then
        ({ s with cap := false, backoff_ms := nextBackoff cfg s.backoff_ms },
          [Ev.capRead, Ev.release, Ev.backoffSleep (sleptDelay cfg s.backoff_ms)])
      else
        (s, [Ev.capRead, Ev.loopSleep cfg.loop_sleep_ms]) := by
  unfold step readPhase
  simp only [h, if_true]
  split <;> simp

/-- Witness for the amended C5 theorem: a read failure within the
staleness window keeps looping. -/
theorem C5_release_iff_stale_witness :
    step cfgLongStale ⟨true, 100, 1, some 7, 1⟩ ⟨2, true, ReadRes.readFail⟩ =
      ((⟨true, 100, 1, some 7, 1⟩ : WorkerState), [Ev.capRead, Ev.loopSleep 30]) := by
  rw [C5_release_iff_stale cfgLongStale ⟨true, 100, 1, some 7, 1⟩ 2 true rfl]
  with_unfolding_all decide

/-- Claim C6: `get_latest_frame` returns empty iff no frame has ever been
published during the run; in particular after the first publish it never
returns empty again, across disconnects and reconnect cycles. -/
theorem C6_getLatest_empty_iff_never_published (cfg : Config) (its : List Iter) :
    slotOf (run cfg its).1 = none ↔ publishesOf (run cfg its).2 = [] := by
  rw [slotOf_none_iff, run, runFrom_slot_none]
  simp [initState]

/-- Claim C7 states every snapshot request made while the device is
disconnected gets the retryable 503.  Counterexample: after one published
frame and a staleness-triggered disconnect, the snapshot handler returns
HTTP 200 with the stale frame `(7, 1)`, not 503. -/
theorem C7_stale_frame_while_disconnected_cex :
    (run cfgMul3 [⟨1, true, ReadRes.frame 7⟩, ⟨100, true, ReadRes.readFail⟩]).1.cap = false ∧
    handleFrame (slotOf (run cfgMul3 [⟨1, true, ReadRes.frame 7⟩, ⟨100, true, ReadRes.readFail⟩]).1)
        = FrameResponse.ok 7 1 ∧
    handleFrame (slotOf (run cfgMul3 [⟨1, true, ReadRes.frame 7⟩, ⟨100, true, ReadRes.readFail⟩]).1)
        ≠ FrameResponse.unavailable := by
  with_unfolding_all decide

/-- Claim C7, amended: the snapshot handler answers the retryable 503 iff
no frame has ever been published; once any frame was published it
answers 200 with the latest stored frame even while the device is
disconnected. -/
theorem C7_unavailable_iff_never_published (cfg : Config) (its : List Iter) :
    handleFrame (slotOf (run cfg its).1) = FrameResponse.unavailable ↔
      publishesOf (run cfg its).2 = [] := by
  have h2 : slotOf (run cfg its).1 = none ↔ publishesOf (run cfg its).2 = [] := by
    rw [slotOf_none_iff, run, runFrom_slot_none]
    simp [initState]
  rw [← h2]
  cases hx : slotOf (run cfg its).1 with
  | none => simp [handleFrame]
  | some f => rcases f with ⟨j, ts⟩; simp [handleFrame]

/-- Claim C8 states a JPEG encode failure never affects connection state.
Counterexample: reads succeed but encodes fail; since `last_success_ts`
is refreshed only on successful encode + publish, the staleness timeout
fires, the handle is released and the loop reconnects — while the slot
still holds the old frame. -/
theorem C8_encode_failures_trigger_reconnect_cex :
    releaseCount (run cfgMul3
      [⟨1, true, ReadRes.frame 7⟩, ⟨2, true, ReadRes.encodeFail⟩, ⟨100, true, ReadRes.encodeFail⟩]).2 = 1 ∧
    (run cfgMul3
      [⟨1, true, ReadRes.frame 7⟩, ⟨2, true, ReadRes.encodeFail⟩, ⟨100, true, ReadRes.encodeFail⟩]).1.cap = false ∧
    slotOf (run cfgMul3
      [⟨1, true, ReadRes.frame 7⟩, ⟨2, true, ReadRes.encodeFail⟩, ⟨100, true, ReadRes.encodeFail⟩]).1 = some (7, 1) := by
  with_unfolding_all decide

/-- Claim C8, amended: an encode failure leaves the Frame Slot unchanged
and is not separately counted, but it does not refresh
`last_success_ts`, so the pass still releases the handle and reconnects
iff the staleness condition holds on the old `last_success_ts`. -/
theorem C8_encode_fail_slot_and_state (cfg : Config) (s : WorkerState) (now : ℚ) (o : Bool)
    (h : s.cap = true) :
    slotOf (step cfg s ⟨now, o, ReadRes.encodeFail⟩).1 = slotOf s ∧
    step cfg s ⟨now, o, ReadRes.encodeFail⟩ =
      if s.last_success_ts > 0 ∧ now - s.last_success_ts > cfg.stale_timeout_sec then
        ({ s with cap := false, backoff_ms := nextBackoff cfg s.backoff_ms },
          [Ev.capRead, Ev.release, Ev.backoffSleep (sleptDelay cfg s.backoff_ms)])
      else
        (s, [Ev.capRead, Ev.loopSleep cfg.loop_sleep_ms]) := by
  have he : step cfg s ⟨now, o, ReadRes.encodeFail⟩ =
      if s.last_success_ts > 0 ∧ now - s.last_success_ts > cfg.stale_timeout_sec then
        ({ s with cap := false, backoff_ms := nextBackoff cfg s.backoff_ms },
          [Ev.capRead, Ev.release, Ev.backoffSleep (sleptDelay cfg s.backoff_ms)])
      else
        (s, [Ev.capRead, Ev.loopSleep cfg.loop_sleep_ms]) := by
    unfold step readPhase
    simp only [h, if_true]
    split <;> simp
  refine ⟨?_, he⟩
  rw [he]
  split <;> simp [slotOf]

/-- Witness for the amended C8 theorem: an encode failure within the
staleness window leaves slot and state unchanged. -/
theorem C8_encode_fail_slot_and_state_witness :
    slotOf (step cfgLongStale ⟨true, 100, 1, some 7, 1⟩ ⟨2, true, ReadRes.encodeFail⟩).1
        = slotOf ⟨true, 100, 1, some 7, 1⟩ ∧
    step cfgLongStale ⟨true, 100, 1, some 7, 1⟩ ⟨2, true, ReadRes.encodeFail⟩ =
      ((⟨true, 100, 1, some 7, 1⟩ : WorkerState), [Ev.capRead, Ev.loopSleep 30]) := by
  have h := C8_encode_fail_slot_and_state cfgLongStale ⟨true, 100, 1, some 7, 1⟩ 2 true rfl
  refine ⟨h.1, ?_⟩
  rw [h.2]
  with_unfolding_all decide

end UsbWebcam

namespace UsbWebcam

/-- A stream-handler pass that writes no part leaves `last_sent_ts`
unchanged. -/
theorem streamStep_skip_state (cfg : Config) (st : StreamState) (p : Poll)
    (h : (streamStep cfg st p).2.1 = none) : (streamStep cfg st p).1 = st := by
  rcases p with ⟨slot, now, w⟩
  cases slot with
  | none => rfl
  | some f =>
      rcases f with ⟨j, ts⟩
      by_cases hc : ts ≤ st.last_sent_ts ∨
          (minInterval cfg > 0 ∧ now - st.last_sent_ts < minInterval cfg)
      · simp [streamStep, hc]
      · cases w with
        | false => simp [streamStep, hc]
        | true =>
            exfalso
            revert h
            simp [streamStep, hc]

/-- When a stream-handler pass writes a part: the part came from the slot,
was written at the pass's `now`, its capture timestamp beats
`last_sent_ts`, the throttle gate held, and `last_sent_ts` becomes the
part's capture timestamp. -/
theorem streamStep_send_spec (cfg : Config) (st : StreamState) (p : Poll) (part : Part)
    (h : (streamStep cfg st p).2.1 = some part) :
    p.slot = some (part.data, part.ts) ∧ part.sentAt = p.now ∧
    st.last_sent_ts < part.ts ∧
    (0 < minInterval cfg → minInterval cfg ≤ p.now - st.last_sent_ts) ∧
    (0 ≤ st.last_sent_ts → (streamStep cfg st p).1 = ⟨part.ts⟩) := by
  rcases p with ⟨slot, now, w⟩
  cases slot with
  | none => exact absurd h (by simp [streamStep])
  | some f =>
      rcases f with ⟨j, ts⟩
      by_cases hc : ts ≤ st.last_sent_ts ∨
          (minInterval cfg > 0 ∧ now - st.last_sent_ts < minInterval cfg)
      · exfalso; revert h; simp [streamStep, hc]
      · cases w with
        | false => exfalso; revert h; simp [streamStep, hc]
        | true =>
            rcases part with ⟨pd, pts, pat⟩
            have hc2 := hc
            push_neg at hc2
            have hpart : pd = j ∧ pts = ts ∧ pat = now := by
              have h2 := h
              simp [streamStep, hc] at h2
              exact ⟨h2.1.symm, h2.2.1.symm, h2.2.2.symm⟩
            obtain ⟨h1, h2, h3⟩ := hpart
            subst h1; subst h2; subst h3
            refine ⟨rfl, rfl, hc2.1, hc2.2, ?_⟩
            intro h0
            have hts : (0 : ℚ) < pts := lt_of_le_of_lt h0 hc2.1
            simp [streamStep, hc, hts]

/-- Claim C3 states the Frame Slot provides a blocking
`waitForNewer(lastSeq, timeout)` that returns a frame or times out,
without busy-wait polling.  Counterexample: the stream handler polls
`get_latest_frame()` in a sleep loop with no timeout path — over eleven
polls spanning ten seconds of an empty slot it writes nothing, never
returns a timeout, and is still looping. -/
theorem C3_no_wait_timeout_cex :
    streamRun cfgMul3 initStream ((List.range 11).map fun k => ⟨none, (k : ℚ), true⟩)
      = (initStream, [], false) := by
  with_unfolding_all decide

/-- Claim C3, amended: there is no blocking wait; the `_handle_stream`
loop polls the slot, and at any poll where the slot holds a frame whose
timestamp exceeds `last_sent_ts` and the min-interval gate passes, the
frame is sent at that poll, while a poll of an empty slot just sleeps
and continues. -/
theorem C3_poll_loop_spec (cfg : Config) (st : StreamState) (j : Bytes) (ts now : ℚ)
    (hts : st.last_sent_ts < ts)
    (hgate : ¬(0 < minInterval cfg ∧ now - st.last_sent_ts < minInterval cfg)) :
    streamStep cfg st ⟨some (j, ts), now, true⟩ =
      ({ last_sent_ts := if ts > 0 then ts else now }, some ⟨j, ts, now⟩, false) ∧
    streamStep cfg st ⟨none, now, true⟩ = (st, none, false) := by
  have hc : ¬(ts ≤ st.last_sent_ts ∨
      (minInterval cfg > 0 ∧ now - st.last_sent_ts < minInterval cfg)) :=
    not_or.mpr ⟨not_le.mpr hts, hgate⟩
  constructor
  · simp [streamStep, hc]
  · rfl

/-- Witness for the amended C3 theorem at a concrete poll. -/
theorem C3_poll_loop_spec_witness :
    streamStep cfgMul3 initStream ⟨some (7, 1), 2, true⟩ = (⟨1⟩, some ⟨7, 1, 2⟩, false) ∧
    streamStep cfgMul3 initStream ⟨none, 2, true⟩ = (initStream, none, false) := by
  have h := C3_poll_loop_spec cfgMul3 initStream 7 1 2
    (by norm_num [initStream])
    (by norm_num [initStream, minInterval, cfgMul3])
  refine ⟨?_, h.2⟩
  rw [h.1]
  with_unfolding_all decide

/-- Claim C10 states that with the throttle on, successive parts of one
stream connection are sent at least `STREAM_MIN_INTERVAL_MS` apart.
Counterexample: the throttle compares `now` against the previous part's
capture timestamp, not its send time; with a one-second minimum, two
parts go out half a second apart because the first frame was captured
long before it was sent. -/
theorem C10_throttle_measured_from_capture_ts_cex :
    (streamRun cfgThrottle initStream
        [⟨some (7, 1), 10, true⟩, ⟨some (8, 2), 21/2, true⟩]).2.1
      = [⟨7, 1, 10⟩, ⟨8, 2, 21/2⟩] ∧
    (21/2 : ℚ) - 10 < minInterval cfgThrottle := by
  with_unfolding_all decide

/-- Along a stream connection the written parts have strictly increasing
capture timestamps, each at least `min_interval` after the previous
`last_sent_ts` when the throttle is on. -/
theorem streamRun_chain (cfg : Config) :
    ∀ (polls : List Poll) (st : StreamState), 0 ≤ st.last_sent_ts →
      List.Chain' (fun p q : Part => p.ts < q.ts ∧
          (0 < minInterval cfg → minInterval cfg ≤ q.sentAt - p.ts))
        (streamRun cfg st polls).2.1 ∧
      (∀ q : Part, ((streamRun cfg st polls).2.1).head? = some q →
        st.last_sent_ts < q.ts ∧
          (0 < minInterval cfg → minInterval cfg ≤ q.sentAt - st.last_sent_ts)) := by
  intro polls
  induction polls with
  | nil => intro st h0; simp [streamRun]
  | cons p rest ih =>
      intro st h0
      by_cases hb : (streamStep cfg st p).2.2
      · simp [streamRun, hb]
      · cases hsend : (streamStep cfg st p).2.1 with
        | none =>
            have hst : (streamStep cfg st p).1 = st := streamStep_skip_state cfg st p hsend
            have hih := ih st h0
            simpa [streamRun, hb, hsend, hst] using hih
        | some part =>
            obtain ⟨hslot, hat, hlt, hmi, hnewst⟩ := streamStep_send_spec cfg st p part hsend
            have h0' : 0 ≤ part.ts := le_of_lt (lt_of_le_of_lt h0 hlt)
            have hih := ih ⟨part.ts⟩ h0'
            have hparts : (streamRun cfg st (p :: rest)).2.1
                = part :: (streamRun cfg (⟨part.ts⟩ : StreamState) rest).2.1 := by
              simp [streamRun, hb, hsend, hnewst h0]
            constructor
            · rw [hparts, List.chain'_cons']
              refine ⟨?_, hih.1⟩
              intro q hq
              have hhead := hih.2 q hq
              exact ⟨hhead.1, fun hmi2 => hhead.2 hmi2⟩
            · intro q hq
              rw [hparts] at hq
              simp only [List.head?_cons, Option.some.injEq] at hq
              subst hq
              refine ⟨hlt, fun hmi2 => ?_⟩
              rw [hat]
              exact hmi hmi2

/-- Claim C10, amended: within one stream connection successive parts
carry strictly increasing capture timestamps — the same frame is never
sent twice — and when the throttle is on, a part is sent only once
`min_interval` has elapsed since the previous part's capture timestamp
(not since its send time). -/
theorem C10_stream_parts_strictly_newer (cfg : Config) (polls : List Poll) :
    List.Chain' (fun p q : Part => p.ts < q.ts ∧
        (0 < minInterval cfg → minInterval cfg ≤ q.sentAt - p.ts))
      (streamRun cfg initStream polls).2.1 :=
  (streamRun_chain cfg polls initStream (le_refl 0)).1

/-- Witness for the amended C10 theorem on a concrete throttled
connection that sends two parts. -/
theorem C10_stream_parts_strictly_newer_witness :
    List.Chain' (fun p q : Part => p.ts < q.ts ∧
        (0 < minInterval cfgThrottle → minInterval cfgThrottle ≤ q.sentAt - p.ts))
      (streamRun cfgThrottle initStream
        [⟨some (7, 1), 10, true⟩, ⟨some (8, 12), 13, true⟩]).2.1 :=
  C10_stream_parts_strictly_newer cfgThrottle
    [⟨some (7, 1), 10, true⟩, ⟨some (8, 12), 13, true⟩]

end UsbWebcam

namespace UsbWebcam

/-- System-trace publishes split over concatenation. -/
theorem sysPublishes_append (a b : List (Tid × Act)) :
    sysPublishes (a ++ b) = sysPublishes a ++ sysPublishes b := by
  induction a with
  | nil => simp [sysPublishes]
  | cons e r ih =>
      obtain ⟨t, act⟩ := e
      cases act with
      | loopEv ev => cases ev <;> simp [sysPublishes, ih]
      | slotRead => simp [sysPublishes, ih]
      | wrote p => simp [sysPublishes, ih]
      | answered resp => simp [sysPublishes, ih]

/-- Parts received by one consumer split over trace concatenation. -/
theorem sentBy_append (n : ℕ) (a b : List (Tid × Act)) :
    sentBy n (a ++ b) = sentBy n a ++ sentBy n b := by
  induction a with
  | nil => simp [sentBy]
  | cons e r ih =>
      obtain ⟨t, act⟩ := e
      cases t with
      | worker => cases act <;> simp [sentBy, ih]
      | main => cases act <;> simp [sentBy, ih]
      | consumer m =>
          cases act with
          | wrote p => by_cases hm : m = n <;> simp [sentBy, hm, ih]
          | loopEv ev => simp [sentBy, ih]
          | slotRead => simp [sentBy, ih]
          | answered resp => simp [sentBy, ih]

/-- Worker-thread events contain no consumer part. -/
theorem sentBy_workerEvents (n : ℕ) (evs : List Ev) :
    sentBy n (evs.map (fun e => (Tid.worker, Act.loopEv e))) = [] := by
  induction evs with
  | nil => simp [sentBy]
  | cons e r ih => simp [sentBy, ih]

/-- Worker-thread events carry exactly the acquisition loop's publishes. -/
theorem sysPublishes_workerEvents (evs : List Ev) :
    sysPublishes (evs.map (fun e => (Tid.worker, Act.loopEv e))) = publishesOf evs := by
  induction evs with
  | nil => simp [sysPublishes, publishesOf]
  | cons e r ih => cases e <;> simp [sysPublishes, publishesOf, ih]

/-- A successful read + encode leaves the published frame in the slot and
in the trace. -/
theorem readPhase_slot_frame (cfg : Config) (s : WorkerState) (it : Iter) (evs : List Ev)
    (d : Bytes) (h : it.res = ReadRes.frame d) :
    slotOf (readPhase cfg s it evs).1 = some (d, it.now) ∧
    (d, it.now) ∈ publishesOf (readPhase cfg s it evs).2 := by
  unfold readPhase
  rw [h]
  dsimp only
  split <;> simp [slotOf, publishesOf, publishesOf_append]

/-- A failed read or failed encode leaves the slot as it was and publishes
nothing. -/
theorem readPhase_slot_other (cfg : Config) (s : WorkerState) (it : Iter) (evs : List Ev)
    (h : it.res = ReadRes.readFail ∨ it.res = ReadRes.encodeFail) :
    slotOf (readPhase cfg s it evs).1 = slotOf s ∧
    publishesOf (readPhase cfg s it evs).2 = publishesOf evs := by
  unfold readPhase
  rcases h with h | h <;> rw [h] <;> dsimp only <;>
    split <;> simp [slotOf, publishesOf, publishesOf_append]

/-- Whatever one pass leaves in the slot was either there before the pass
or published during it. -/
theorem step_slot_origin (cfg : Config) (s : WorkerState) (it : Iter) (f : Bytes × ℚ)
    (h : slotOf (step cfg s it).1 = some f) :
    slotOf s = some f ∨ f ∈ publishesOf (step cfg s it).2 := by
  cases hres : it.res with
  | frame d =>
      by_cases hc : s.cap
      · have hr := readPhase_slot_frame cfg s it [] d hres
        unfold step at h ⊢
        rw [if_pos hc] at h ⊢
        rw [hr.1] at h
        right
        rw [(Option.some.injEq _ _).mp h] at hr
        exact hr.2
      · by_cases ho : it.openOk
        · have hr := readPhase_slot_frame cfg (openedState cfg s it.now) it [Ev.openAttempt] d hres
          unfold step at h ⊢
          rw [if_neg hc, if_pos ho] at h ⊢
          rw [hr.1] at h
          right
          rw [(Option.some.injEq _ _).mp h] at hr
          exact hr.2
        · unfold step at h
          rw [if_neg hc, if_neg ho] at h
          exact Or.inl h
  | readFail =>
      by_cases hc : s.cap
      · have hr := readPhase_slot_other cfg s it [] (Or.inl hres)
        unfold step at h
        rw [if_pos hc, hr.1] at h
        exact Or.inl h
      · by_cases ho : it.openOk
        · have hr := readPhase_slot_other cfg (openedState cfg s it.now) it [Ev.openAttempt] (Or.inl hres)
          unfold step at h
          rw [if_neg hc, if_pos ho, hr.1] at h
          exact Or.inl h
        · unfold step at h
          rw [if_neg hc, if_neg ho] at h
          exact Or.inl h
  | encodeFail =>
      by_cases hc : s.cap
      · have hr := readPhase_slot_other cfg s it [] (Or.inr hres)
        unfold step at h
        rw [if_pos hc, hr.1] at h
        exact Or.inl h
      · by_cases ho : it.openOk
        · have hr := readPhase_slot_other cfg (openedState cfg s it.now) it [Ev.openAttempt] (Or.inr hres)
          unfold step at h
          rw [if_neg hc, if_pos ho, hr.1] at h
          exact Or.inl h
        · unfold step at h
          rw [if_neg hc, if_neg ho] at h
          exact Or.inl h

end UsbWebcam

namespace UsbWebcam

/-- Unfolding equation of the interleaved run. -/
theorem sysRunFrom_cons (cfg : Config) (σ : SysState) (si : SysIter) (rest : List SysIter) :
    sysRunFrom cfg σ (si :: rest)
      = ((sysRunFrom cfg (sysStep cfg σ si).1 rest).1,
         (sysStep cfg σ si).2 ++ (sysRunFrom cfg (sysStep cfg σ si).1 rest).2) := rfl

/-- Lookup in the per-connection state list after one binding. -/
theorem getStream_cons (l : List (ℕ × StreamState)) (m k : ℕ) (v : StreamState) :
    getStream ((m, v) :: l) k = if k = m then v else getStream l k := by
  by_cases hk : k = m
  · subst hk; simp [getStream, List.lookup]
  · have hb : (k == m) = false := beq_eq_false_iff_ne.mpr hk
    simp [getStream, List.lookup, hb, hk]

/-- Every part any consumer receives during an interleaved run is either a
frame that was already in the slot at the start (`P0`) or one published
during the run. -/
theorem sysRunFrom_sends_published (cfg : Config) :
    ∀ (sched : List SysIter) (σ : SysState) (P0 : List (Bytes × ℚ)),
      (∀ f, slotOf σ.ws = some f → f ∈ P0) →
      ∀ (n : ℕ) (p : Part), p ∈ sentBy n (sysRunFrom cfg σ sched).2 →
        (p.data, p.ts) ∈ P0 ++ sysPublishes (sysRunFrom cfg σ sched).2 := by
  intro sched
  induction sched with
  | nil => intro σ P0 hσ n p hp; simp [sysRunFrom, sentBy] at hp
  | cons si rest ih =>
      intro σ P0 hσ n p hp
      rw [sysRunFrom_cons, sentBy_append, List.mem_append] at hp
      rw [sysRunFrom_cons]
      simp only [sysPublishes_append]
      cases si with
      | workerPass it =>
          by_cases hs : σ.stopped
          · have hstep : sysStep cfg σ (SysIter.workerPass it) = (σ, []) := by
              simp [sysStep, hs]
            rw [hstep] at hp ⊢
            simp only [sentBy, List.not_mem_nil, false_or] at hp
            simp only [sysPublishes, List.nil_append]
            exact ih σ P0 hσ n p hp
          · have hstep : sysStep cfg σ (SysIter.workerPass it)
                = ({ σ with ws := (step cfg σ.ws it).1 },
                   (step cfg σ.ws it).2.map (fun e => (Tid.worker, Act.loopEv e))) := by
              simp [sysStep, hs]
            rw [hstep] at hp ⊢
            rw [sentBy_workerEvents] at hp
            simp only [List.not_mem_nil, false_or] at hp
            rw [sysPublishes_workerEvents]
            have hσ2 : ∀ f, slotOf (({ σ with ws := (step cfg σ.ws it).1 } : SysState)).ws = some f →
                f ∈ P0 ++ publishesOf (step cfg σ.ws it).2 := by
              intro f hf
              rcases step_slot_origin cfg σ.ws it f hf with h | h
              · exact List.mem_append_left _ (hσ f h)
              · exact List.mem_append_right _ h
            have hres := ih _ (P0 ++ publishesOf (step cfg σ.ws it).2) hσ2 n p hp
            rw [List.append_assoc] at hres
            exact hres
      | stopCall =>
          cases hcap : σ.ws.cap with
          | false =>
              have hstep : sysStep cfg σ SysIter.stopCall = ({ σ with stopped := true }, []) := by
                simp [sysStep, hcap]
              rw [hstep] at hp ⊢
              simp only [sentBy, List.not_mem_nil, false_or] at hp
              simp only [sysPublishes, List.nil_append]
              exact ih { σ with stopped := true } P0 (fun f hf => hσ f hf) n p hp
          | true =>
              have hstep : sysStep cfg σ SysIter.stopCall
                  = ({ σ with stopped := true }, [(Tid.main, Act.loopEv Ev.release)]) := by
                simp [sysStep, hcap]
              rw [hstep] at hp ⊢
              simp only [sentBy, List.not_mem_nil, false_or] at hp
              simp only [sysPublishes, List.nil_append]
              exact ih { σ with stopped := true } P0 (fun f hf => hσ f hf) n p hp
      | frameRequest m =>
          have hstep : sysStep cfg σ (SysIter.frameRequest m)
              = (σ, [(Tid.consumer m, Act.slotRead),
                     (Tid.consumer m, Act.answered (handleFrame (slotOf σ.ws)))]) := by
            simp [sysStep]
          rw [hstep] at hp ⊢
          simp only [sentBy, List.not_mem_nil, false_or] at hp
          simp only [sysPublishes, List.nil_append]
          exact ih σ P0 hσ n p hp
      | streamPoll m now w =>
          cases hsend : (streamStep cfg (getStream σ.streams m) ⟨slotOf σ.ws, now, w⟩).2.1 with
          | none =>
              have hstep : sysStep cfg σ (SysIter.streamPoll m now w)
                  = ({ σ with streams :=
                        (m, (streamStep cfg (getStream σ.streams m) ⟨slotOf σ.ws, now, w⟩).1)
                          :: σ.streams },
                     [(Tid.consumer m, Act.slotRead)]) := by
                simp [sysStep, hsend]
              rw [hstep] at hp ⊢
              simp only [sentBy, List.not_mem_nil, false_or] at hp
              simp only [sysPublishes, List.nil_append]
              exact ih { σ with streams :=
                  (m, (streamStep cfg (getStream σ.streams m) ⟨slotOf σ.ws, now, w⟩).1)
                    :: σ.streams } P0 (fun f hf => hσ f hf) n p hp
          | some part =>
              have hstep : sysStep cfg σ (SysIter.streamPoll m now w)
                  = ({ σ with streams :=
                        (m, (streamStep cfg (getStream σ.streams m) ⟨slotOf σ.ws, now, w⟩).1)
                          :: σ.streams },
                     [(Tid.consumer m, Act.slotRead), (Tid.consumer m, Act.wrote part)]) := by
                simp [sysStep, hsend]
              rw [hstep] at hp ⊢
              simp only [sysPublishes, List.nil_append]
              rcases hp with hp | hp
              · have hpp : p = part := by
                  by_cases hm : m = n <;> simp [sentBy, hm] at hp
                  · exact hp
                have hslot := (streamStep_send_spec cfg (getStream σ.streams m)
                    ⟨slotOf σ.ws, now, w⟩ part hsend).1
                rw [hpp]
                exact List.mem_append_left _ (hσ _ hslot)
              · exact ih { σ with streams :=
                    (m, (streamStep cfg (getStream σ.streams m) ⟨slotOf σ.ws, now, w⟩).1)
                      :: σ.streams } P0 (fun f hf => hσ f hf) n p hp

end UsbWebcam

namespace UsbWebcam

/-- During an interleaved run each consumer's received parts, prefixed
with its `last_sent_ts`, have strictly increasing capture timestamps. -/
theorem sysRunFrom_sends_chain (cfg : Config) :
    ∀ (sched : List SysIter) (σ : SysState),
      (∀ m, 0 ≤ (getStream σ.streams m).last_sent_ts) →
      ∀ n, List.Chain' (· < ·)
        ((getStream σ.streams n).last_sent_ts ::
          (sentBy n (sysRunFrom cfg σ sched).2).map Part.ts) := by
  intro sched
  induction sched with
  | nil => intro σ h0 n; simp [sysRunFrom, sentBy]
  | cons si rest ih =>
      intro σ h0 n
      rw [sysRunFrom_cons, sentBy_append, List.map_append]
      cases si with
      | workerPass it =>
          by_cases hs : σ.stopped
          · have hstep : sysStep cfg σ (SysIter.workerPass it) = (σ, []) := by
              simp [sysStep, hs]
            rw [hstep]
            simpa [sentBy] using ih σ h0 n
          · have hstep : sysStep cfg σ (SysIter.workerPass it)
                = ({ σ with ws := (step cfg σ.ws it).1 },
                   (step cfg σ.ws it).2.map (fun e => (Tid.worker, Act.loopEv e))) := by
              simp [sysStep, hs]
            rw [hstep, sentBy_workerEvents]
            simpa using ih { σ with ws := (step cfg σ.ws it).1 } (fun m => h0 m) n
      | stopCall =>
          cases hcap : σ.ws.cap with
          | false =>
              have hstep : sysStep cfg σ SysIter.stopCall = ({ σ with stopped := true }, []) := by
                simp [sysStep, hcap]
              rw [hstep]
              simpa [sentBy] using ih { σ with stopped := true } (fun m => h0 m) n
          | true =>
              have hstep : sysStep cfg σ SysIter.stopCall
                  = ({ σ with stopped := true }, [(Tid.main, Act.loopEv Ev.release)]) := by
                simp [sysStep, hcap]
              rw [hstep]
              simpa [sentBy] using ih { σ with stopped := true } (fun m => h0 m) n
      | frameRequest m =>
          have hstep : sysStep cfg σ (SysIter.frameRequest m)
              = (σ, [(Tid.consumer m, Act.slotRead),
                     (Tid.consumer m, Act.answered (handleFrame (slotOf σ.ws)))]) := by
            simp [sysStep]
          rw [hstep]
          simpa [sentBy] using ih σ h0 n
      | streamPoll m now w =>
          cases hsend : (streamStep cfg (getStream σ.streams m) ⟨slotOf σ.ws, now, w⟩).2.1 with
          | none =>
              have hst := streamStep_skip_state cfg (getStream σ.streams m)
                ⟨slotOf σ.ws, now, w⟩ hsend
              have hstep : sysStep cfg σ (SysIter.streamPoll m now w)
                  = ({ σ with streams :=
                        (m, (streamStep cfg (getStream σ.streams m) ⟨slotOf σ.ws, now, w⟩).1)
                          :: σ.streams },
                     [(Tid.consumer m, Act.slotRead)]) := by
                simp [sysStep, hsend]
              rw [hstep]
              have hgs : ∀ k, getStream
                  ((m, (streamStep cfg (getStream σ.streams m) ⟨slotOf σ.ws, now, w⟩).1)
                    :: σ.streams) k = getStream σ.streams k := by
                intro k
                rw [getStream_cons]
                by_cases hk : k = m
                · subst hk; rw [hst]; simp
                · simp [hk]
              have hih := ih { σ with streams :=
                  (m, (streamStep cfg (getStream σ.streams m) ⟨slotOf σ.ws, now, w⟩).1)
                    :: σ.streams } (fun k => by rw [show getStream _ k = getStream σ.streams k from hgs k]; exact h0 k) n
              rw [hgs n] at hih
              simpa [sentBy] using hih
          | some part =>
              obtain ⟨hslot, hat, hlt, hmi, hnewst⟩ := streamStep_send_spec cfg
                (getStream σ.streams m) ⟨slotOf σ.ws, now, w⟩ part hsend
              have hpts : 0 ≤ part.ts := le_of_lt (lt_of_le_of_lt (h0 m) hlt)
              have hr1 : (streamStep cfg (getStream σ.streams m) ⟨slotOf σ.ws, now, w⟩).1
                  = ⟨part.ts⟩ := hnewst (h0 m)
              have hstep : sysStep cfg σ (SysIter.streamPoll m now w)
                  = ({ σ with streams :=
                        (m, (streamStep cfg (getStream σ.streams m) ⟨slotOf σ.ws, now, w⟩).1)
                          :: σ.streams },
                     [(Tid.consumer m, Act.slotRead), (Tid.consumer m, Act.wrote part)]) := by
                simp [sysStep, hsend]
              rw [hstep]
              have hgs : ∀ k, getStream
                  ((m, (streamStep cfg (getStream σ.streams m) ⟨slotOf σ.ws, now, w⟩).1)
                    :: σ.streams) k = if k = m then ⟨part.ts⟩ else getStream σ.streams k := by
                intro k
                rw [getStream_cons, hr1]
              have h0' : ∀ k, 0 ≤ (getStream
                  ((m, (streamStep cfg (getStream σ.streams m) ⟨slotOf σ.ws, now, w⟩).1)
                    :: σ.streams) k).last_sent_ts := by
                intro k
                rw [hgs k]
                by_cases hk : k = m
                · simp [hk, hpts]
                · simp [hk]; exact h0 k
              have hih := ih { σ with streams :=
                  (m, (streamStep cfg (getStream σ.streams m) ⟨slotOf σ.ws, now, w⟩).1)
                    :: σ.streams } h0' n
              by_cases hm : m = n
              · subst hm
                rw [hgs m, if_pos rfl] at hih
                have hsb : sentBy m [(Tid.consumer m, Act.slotRead), (Tid.consumer m, Act.wrote part)]
                    = [part] := by simp [sentBy]
                rw [hsb]
                simp only [List.map_cons, List.map_nil, List.singleton_append]
                rw [List.chain'_cons]
                exact ⟨hlt, hih⟩
              · have hne : ¬ n = m := fun hx => hm hx.symm
                rw [hgs n, if_neg hne] at hih
                have hsb : sentBy n [(Tid.consumer m, Act.slotRead), (Tid.consumer m, Act.wrote part)]
                    = [] := by simp [sentBy, hm]
                rw [hsb]
                simpa using hih

end UsbWebcam

namespace UsbWebcam

/-- In any interleaved run, every trace event that touches the
`CaptureHandle` is performed by the worker thread, except the `release`
that `VideoWorker.stop` performs on the main thread. -/
theorem sysRunFrom_cap_owner (cfg : Config) :
    ∀ (sched : List SysIter) (σ : SysState) (t : Tid) (a : Act),
      (t, a) ∈ (sysRunFrom cfg σ sched).2 → touchesCap a = true →
      t = Tid.worker ∨ (t = Tid.main ∧ a = Act.loopEv Ev.release) := by
  intro sched
  induction sched with
  | nil => intro σ t a h _; simp [sysRunFrom] at h
  | cons si rest ih =>
      intro σ t a h hcap
      rw [sysRunFrom_cons, List.mem_append] at h
      rcases h with h | h
      · cases si with
        | workerPass it =>
            by_cases hs : σ.stopped
            · have hstep : sysStep cfg σ (SysIter.workerPass it) = (σ, []) := by
                simp [sysStep, hs]
              rw [hstep] at h
              simp at h
            · have hstep : sysStep cfg σ (SysIter.workerPass it)
                  = ({ σ with ws := (step cfg σ.ws it).1 },
                     (step cfg σ.ws it).2.map (fun e => (Tid.worker, Act.loopEv e))) := by
                simp [sysStep, hs]
              rw [hstep] at h
              obtain ⟨e, -, he⟩ := List.mem_map.mp h
              cases he
              exact Or.inl rfl
        | stopCall =>
            cases hcp : σ.ws.cap with
            | false =>
                have hstep : sysStep cfg σ SysIter.stopCall
                    = ({ σ with stopped := true }, []) := by
                  simp [sysStep, hcp]
                rw [hstep] at h
                simp at h
            | true =>
                have hstep : sysStep cfg σ SysIter.stopCall
                    = ({ σ with stopped := true }, [(Tid.main, Act.loopEv Ev.release)]) := by
                  simp [sysStep, hcp]
                rw [hstep] at h
                simp at h
                exact Or.inr ⟨h.1, h.2⟩
        | frameRequest m =>
            have hstep : sysStep cfg σ (SysIter.frameRequest m)
                = (σ, [(Tid.consumer m, Act.slotRead),
                       (Tid.consumer m, Act.answered (handleFrame (slotOf σ.ws)))]) := by
              simp [sysStep]
            rw [hstep] at h
            simp at h
            rcases h with ⟨rfl, rfl⟩ | ⟨rfl, rfl⟩ <;> simp [touchesCap] at hcap
        | streamPoll m now w =>
            cases hsend : (streamStep cfg (getStream σ.streams m) ⟨slotOf σ.ws, now, w⟩).2.1 with
            | none =>
                have hstep : sysStep cfg σ (SysIter.streamPoll m now w)
                    = ({ σ with streams :=
                          (m, (streamStep cfg (getStream σ.streams m) ⟨slotOf σ.ws, now, w⟩).1)
                            :: σ.streams },
                       [(Tid.consumer m, Act.slotRead)]) := by
                  simp [sysStep, hsend]
                rw [hstep] at h
                simp at h
                rcases h with ⟨rfl, rfl⟩
                simp [touchesCap] at hcap
            | some part =>
                have hstep : sysStep cfg σ (SysIter.streamPoll m now w)
                    = ({ σ with streams :=
                          (m, (streamStep cfg (getStream σ.streams m) ⟨slotOf σ.ws, now, w⟩).1)
                            :: σ.streams },
                       [(Tid.consumer m, Act.slotRead), (Tid.consumer m, Act.wrote part)]) := by
                  simp [sysStep, hsend]
                rw [hstep] at h
                simp at h
                rcases h with ⟨rfl, rfl⟩ | ⟨rfl, rfl⟩ <;> simp [touchesCap] at hcap
      · exact ih _ t a h hcap

/-- Claim C1 states that only the Acquisition Loop worker ever calls
`readFrame` on or otherwise accesses the CaptureHandle.  Counterexample:
`VideoWorker.stop` runs on the stopping (main) thread and calls
`self._cap.release()` — a concrete schedule whose trace contains a
handle-touching `release` tagged with the main thread. -/
theorem C1_stop_releases_on_main_thread_cex :
    (Tid.main, Act.loopEv Ev.release) ∈
        (sysRun cfgMul3 [SysIter.workerPass ⟨1, true, ReadRes.frame 7⟩, SysIter.stopCall]).2 ∧
    touchesCap (Act.loopEv Ev.release) = true := by
  with_unfolding_all decide

/-- Claim C1, amended: under every schedule, every handle-touching trace
event (`_open_capture`, `cap.read()`, `release`) is performed by the
worker thread, except the single `release` that `VideoWorker.stop`
performs on the main thread after signalling and joining the worker;
consumer handler threads never touch the handle. -/
theorem C1_reads_only_on_worker_thread (cfg : Config) (sched : List SysIter) (t : Tid) (a : Act)
    (hmem : (t, a) ∈ (sysRun cfg sched).2) (hcap : touchesCap a = true) :
    t = Tid.worker ∨ (t = Tid.main ∧ a = Act.loopEv Ev.release) :=
  sysRunFrom_cap_owner cfg sched (initSys cfg) t a hmem hcap

/-- Witness for the amended C1 theorem at a concrete schedule containing
a worker-thread `cap.read()`. -/
theorem C1_reads_only_on_worker_thread_witness :
    Tid.worker = Tid.worker ∨
      (Tid.worker = Tid.main ∧ Act.loopEv Ev.capRead = Act.loopEv Ev.release) :=
  C1_reads_only_on_worker_thread cfgMul3 [SysIter.workerPass ⟨1, true, ReadRes.frame 7⟩]
    Tid.worker (Act.loopEv Ev.capRead)
    (by with_unfolding_all decide) rfl

/-- Claim C9 states every concurrent stream subscriber observes all
published frames, in order, with no drops.  Counterexample: two frames
are published between a subscriber's polls; the subscriber receives only
the newer one — one part against two publishes. -/
theorem C9_subscriber_misses_frames_cex :
    sysPublishes (sysRun cfgMul3
        [SysIter.workerPass ⟨1, true, ReadRes.frame 1⟩,
         SysIter.workerPass ⟨2, true, ReadRes.frame 2⟩,
         SysIter.streamPoll 0 3 true]).2 = [(1, 1), (2, 2)] ∧
    sentBy 0 (sysRun cfgMul3
        [SysIter.workerPass ⟨1, true, ReadRes.frame 1⟩,
         SysIter.workerPass ⟨2, true, ReadRes.frame 2⟩,
         SysIter.streamPoll 0 3 true]).2 = [⟨2, 2, 3⟩] ∧
    (sentBy 0 (sysRun cfgMul3
        [SysIter.workerPass ⟨1, true, ReadRes.frame 1⟩,
         SysIter.workerPass ⟨2, true, ReadRes.frame 2⟩,
         SysIter.streamPoll 0 3 true]).2).length = 1 ∧
    (sysPublishes (sysRun cfgMul3
        [SysIter.workerPass ⟨1, true, ReadRes.frame 1⟩,
         SysIter.workerPass ⟨2, true, ReadRes.frame 2⟩,
         SysIter.streamPoll 0 3 true]).2).length = 2 := by
  with_unfolding_all decide

/-- Claim C9, amended: every part a stream subscriber receives is a
previously published frame, and the parts it receives carry strictly
increasing capture timestamps (no duplicates, publish order preserved);
frames published between its polls are skipped. -/
theorem C9_subscriber_subsequence (cfg : Config) (sched : List SysIter) (n : ℕ) :
    (∀ p ∈ sentBy n (sysRun cfg sched).2,
        (p.data, p.ts) ∈ sysPublishes (sysRun cfg sched).2) ∧
    List.Chain' (fun p q : Part => p.ts < q.ts) (sentBy n (sysRun cfg sched).2) := by
  constructor
  · intro p hp
    have h := sysRunFrom_sends_published cfg sched (initSys cfg) []
      (by intro f hf; simp [initSys, initState, slotOf] at hf) n p hp
    simpa using h
  · have h := sysRunFrom_sends_chain cfg sched (initSys cfg)
      (by intro m; simp [initSys, getStream, initStream, List.lookup]) n
    have h2 := h.tail
    simp only [List.tail_cons] at h2
    rw [List.chain'_map] at h2
    exact h2

/-- Witness for the amended C9 theorem on a concrete schedule: the
received part was published, and the received parts are strictly
ordered. -/
theorem C9_subscriber_subsequence_witness :
    ((2 : Bytes), (2 : ℚ)) ∈ sysPublishes (sysRun cfgMul3
        [SysIter.workerPass ⟨1, true, ReadRes.frame 1⟩,
         SysIter.workerPass ⟨2, true, ReadRes.frame 2⟩,
         SysIter.streamPoll 0 3 true]).2 ∧
    List.Chain' (fun p q : Part => p.ts < q.ts) (sentBy 0 (sysRun cfgMul3
        [SysIter.workerPass ⟨1, true, ReadRes.frame 1⟩,
         SysIter.workerPass ⟨2, true, ReadRes.frame 2⟩,
         SysIter.streamPoll 0 3 true]).2) :=
  ⟨(C9_subscriber_subsequence cfgMul3
        [SysIter.workerPass ⟨1, true, ReadRes.frame 1⟩,
         SysIter.workerPass ⟨2, true, ReadRes.frame 2⟩,
         SysIter.streamPoll 0 3 true] 0).1 ⟨2, 2, 3⟩ (by with_unfolding_all decide),
   (C9_subscriber_subsequence cfgMul3
        [SysIter.workerPass ⟨1, true, ReadRes.frame 1⟩,
         SysIter.workerPass ⟨2, true, ReadRes.frame 2⟩,
         SysIter.streamPoll 0 3 true] 0).2⟩

end UsbWebcam
